import Mathlib

/-!
Verification development for the `jsonpointer` Go package (RFC 6901 JSON
pointers).  Strings are modelled as `List Char`, a `Pointer` is the list of
its unescaped reference tokens, and the fallible operations return a `Res`
value that distinguishes ordinary Go errors from runtime panics.
-/

/-- Reference token: one unescaped path segment, a Go string. -/
abbrev Token := List Char

/-- `Pointer` represents a parsed JSON pointer: `type Pointer []string`. -/
abbrev Pointer := List Token

/-!  ## String replacement (`strings.Replace(s, old, new, -1)`)

The source only replaces patterns of one character (`~`, `/`) or of two
characters (`~0`, `~1`).  The two models below perform Go's leftmost,
non-overlapping replacement where the inserted text is never rescanned.
-/

/-- Go `strings.Replace(s, string(a), n, -1)` for a one-character pattern. -/
def repl1 (a : Char) (n : List Char) : List Char → List Char
  | [] => []
  | c :: rest => if c = a then n ++ repl1 a n rest else c :: repl1 a n rest

/-- Go `strings.Replace(s, ⟨a, b⟩, n, -1)` for a two-character pattern. -/
def repl2 (a b : Char) (n : List Char) : List Char → List Char
  | [] => []
  | [c] => [c]
  | c :: c2 :: rest =>
    if c = a ∧ c2 = b then n ++ repl2 a b n rest
    else c :: repl2 a b n (c2 :: rest)

/-- `unescapeToken`: replace `~1` by `/`, then `~0` by `~`. -/
def unescapeToken (tok : Token) : Token :=
  repl2 '~' '0' ['~'] (repl2 '~' '1' ['/'] tok)

/-- `escapeToken`: replace `~` by `~0`, then `/` by `~1`. -/
def escapeToken (tok : Token) : Token :=
  repl1 '/' ['~', '1'] (repl1 '~' ['~', '0'] tok)

/-! ## Split and join on the separator `/`

`strings.Split(s, "/")` and `strings.Join(elems, "/")`, specialised to the
one-character separator used by the source. -/

/-- Go `strings.Split(s, "/")`: always returns at least one piece. -/
def splitSlash : List Char → List (List Char)
  | [] => [[]]
  | c :: rest =>
    if c = '/' then [] :: splitSlash rest
    else
      match splitSlash rest with
      | t :: ts => (c :: t) :: ts
      | [] => [[c]]

/-- Go `strings.Join(elems, "/")`. -/
def joinSlash : List (List Char) → List Char
  | [] => []
  | [x] => x
  | x :: xs => x ++ '/' :: joinSlash xs

/-! ## Error model (`error.go`)

`newError`/`wrapError` build values of the concrete type `*Error`, which has
an `Unwrap` method; `fmt.Errorf` (without `%w`) and `errors.New` produce
plain errors without one.  Each format string of the source becomes one
`ErrMsg` constructor carrying the formatted arguments. -/

/-- Go reflection kinds that can appear in error messages. -/
inductive GoKind where
  | invalid | boolK | intK | uintK | floatK | complexK | stringK
  | arrK | mapK | structK | ptrK
deriving DecidableEq, Repr

/-- `ErrType` of `error.go`. -/
inductive ErrType where
  | unknown | invalidJSONPointer | get | set
deriving DecidableEq, Repr

/-- One constructor per error-message format string of the source, carrying
the formatted arguments. -/
inductive ErrMsg where
  | failedToParseURL (m : List Char)            -- "failed to parse URL: %s"
  | invalidValueForPointer (ty : List Char)     -- "invalid value for pointer: %T"
  | mustBeginWithSlash                          -- "non-empty references must begin with a '/' character"
  | doesNotStartWith (p other : Pointer)        -- "%s does not start with %s"
  | cannotGetDocumentValue                      -- "cannot get document value"
  | documentValueInvalid                        -- "document value is invalid"
  | documentValueNil                            -- "document value is nil"
  | invalidArrayIndex (tok : Token)             -- "invalid array index: %s"
  | indexExceedsLength (i : Int) (len : Nat)    -- "index %d exceeds array length of %d"
  | mapHasNoKey (tok : Token)                   -- "map has no key '%s'"
  | structHasNoField (tok : Token)              -- "struct has no field '%s'"
  | primitiveHasNoFields                        -- "primitive value has no fields"
  | unsupportedDocType (k : GoKind)             -- "unsupported document type %s"
  | cannotSetInvalidDoc                         -- "cannot set value on invalid document"
  | cannotSetUnaddressable                      -- "cannot set value on unaddressable document ..."
  | cannotSetInvalidValue                       -- "cannot set value on invalid value"
  | docTypeMismatch (dk vk : GoKind)            -- "cannot set document value of type %s to ..."
  | typeMismatch (src dst : GoKind)             -- "type mismatch (%s ➜ %s)"
  | conversionFailed (src dst : GoKind)         -- "conversion failed (%s ➜ %s)"
  | unsupportedType (k : GoKind)                -- "unsupported type (%s)"
  | urlErr (m : List Char)                      -- error from the net/url layer
deriving DecidableEq, Repr

/-- The concrete `Error` struct of `error.go` (msg is subsumed by `ErrMsg`). -/
structure TypedError where
  msg : ErrMsg
  cause : Option ErrMsg
  errType : ErrType
deriving DecidableEq, Repr

/-- A Go `error` value: either the package's `*Error` type (which has an
`Unwrap` method) or a plain error from `fmt.Errorf`/`errors.New`. -/
inductive GoError where
  | typed (e : TypedError)
  | plain (m : ErrMsg)
deriving DecidableEq, Repr

/-- `newError(errType, format, args...)`. -/
def newError (t : ErrType) (m : ErrMsg) : GoError := .typed ⟨m, none, t⟩

/-- `wrapError(err, errType, format, args...)`. -/
def wrapError (cause : ErrMsg) (t : ErrType) (m : ErrMsg) : GoError :=
  .typed ⟨m, some cause, t⟩

/-- Outcome of a Go computation: a result, a returned error, or a runtime
panic. -/
inductive Res (α : Type) where
  | ok (v : α)
  | err (e : GoError)
  | crash
deriving DecidableEq, Repr

/-! ## Parsing and serialisation (`pointer.go`) -/

/-- `parse(str)`: the root for the empty string; otherwise the string must
begin with `/` and is split on `/` (after dropping the leading one) with each
piece unescaped. -/
def parse (str : List Char) : Res Pointer :=
  match str with
  | [] => .ok []
  | c :: rest =>
    if c = '/' then .ok ((splitSlash rest).map unescapeToken)
    else .err (newError .invalidJSONPointer .mustBeginWithSlash)

/-- `Pointer.String`: empty string for the root, otherwise `/` followed by
the escaped tokens joined with `/`. -/
def Pointer.String (p : Pointer) : List Char :=
  if p = [] then []
  else '/' :: joinSlash (p.map escapeToken)

/-- `Pointer.IsEmpty`. -/
def Pointer.IsEmpty (p : Pointer) : Bool := p.length = 0

/-- `Pointer.Parent`: the source allocates `len(p)` zero-value tokens and
copies only the first `len(p)-1` over them, so the result keeps the original
length with its final token replaced by the empty string. -/
def Pointer.Parent (p : Pointer) : Pointer :=
  if p.IsEmpty then []
  else p.take (p.length - 1) ++ [([] : Token)]

/-- The out-of-scope URI layer: given a raw string, either an error message
or the percent-decoded fragment.  `New` is parameterised over it. -/
def UrlParser := List Char → Except (List Char) (List Char)

/-- The `case string:` arm of `New`: fast paths for the root and for a
`/`-leading string, otherwise parse as URL and use the fragment. -/
def newFromString (u : UrlParser) (v : List Char) : Res Pointer :=
  if v = [] ∨ v = ['#'] then .ok []
  else if v.head? = some '/' then parse v
  else
    match u v with
    | .error m => .err (wrapError (.urlErr m) .invalidJSONPointer (.failedToParseURL m))
    | .ok frag => parse frag

/-- A dynamic argument accepted by `New`, `Join` and `RelativeTo`: a
`Pointer`, a `string`, a `*url.URL` (carrying its fragment), or a value of
any other type (carrying the `%T` type name). -/
inductive PtrArg where
  | ptr (p : Pointer)
  | str (s : List Char)
  | url (frag : List Char)
  | other (ty : List Char)

/-- `New(val)`. -/
def New (u : UrlParser) : PtrArg → Res Pointer
  | .ptr p => .ok p
  | .str s => newFromString u s
  | .url frag => parse frag
  | .other ty => .err (newError .invalidJSONPointer (.invalidValueForPointer ty))

/-- The loop body of `Pointer.Join`: append each element's tokens, stopping
on the first failure; a value of any other type is a plain `fmt.Errorf`. -/
def joinLoop (u : UrlParser) (acc : Pointer) : List PtrArg → Res Pointer
  | [] => .ok acc
  | .ptr e :: rest => joinLoop u (acc ++ e) rest
  | .str s :: rest =>
    match New u (.str s) with
    | .ok q => joinLoop u (acc ++ q) rest
    | .err e => .err e
    | .crash => .crash
  | .url f :: rest =>
    match New u (.url f) with
    | .ok q => joinLoop u (acc ++ q) rest
    | .err e => .err e
    | .crash => .crash
  | .other ty :: _ => .err (.plain (.invalidValueForPointer ty))

/-- `Pointer.Join(elems...)`. -/
def Pointer.Join (u : UrlParser) (p : Pointer) (elems : List PtrArg) : Res Pointer :=
  joinLoop u p elems

/-- Does some position of `other` hold a token different from `p`'s token at
the same position?  (The source loop compares `p[i] != part`.) -/
def leadMismatch : Pointer → Pointer → Bool
  | _, [] => false
  | [], _ :: _ => true
  | x :: xs, y :: ys => x ≠ y || leadMismatch xs ys

/-- The body of `RelativeTo` once `other` has been resolved to a pointer.
After the comparison loop, `numCmnParts` holds the index of the last
compared token (`0` when `other` is empty, since the loop never runs), and
the source slices `p[numCmnParts+1:]` — which drops the first token for an
empty `other` and panics when the slice bound exceeds `len(p)`. -/
def relCore (p o : Pointer) : Res Pointer :=
  if o.length > p.length then .err (.plain (.doesNotStartWith p o))
  else if leadMismatch p o then .err (.plain (.doesNotStartWith p o))
  else
    let numCmnParts := o.length - 1
    if numCmnParts + 1 > p.length then .crash
    else .ok (p.drop (numCmnParts + 1))

/-- `Pointer.RelativeTo(other)`. -/
def Pointer.RelativeTo (u : UrlParser) (p : Pointer) (other : PtrArg) : Res Pointer :=
  match other with
  | .ptr o => relCore p o
  | .str s =>
    match New u (.str s) with
    | .ok o => relCore p o
    | .err e => .err e
    | .crash => .crash
  | .url f =>
    match New u (.url f) with
    | .ok o => relCore p o
    | .err e => .err e
    | .crash => .crash
  | .other ty => .err (.plain (.invalidValueForPointer ty))

/-- A concrete URL oracle used to instantiate closed statements. -/
def noURL : UrlParser := fun _ => .error []

/-! ## The document model (`reflect.Value`)

Documents are dynamically-typed Go values.  `invalid` is an invalid
`reflect.Value` (an untyped nil); interface boxing is left implicit, so the
`reflect.Interface` unwrapping steps of the source are identities here.
Go's `float64` is modelled by `ℚ`, exact for every operation any claim
exercises; `int64`/`uint64` arithmetic wraps explicitly where the source
converts. -/

/-- A Go runtime value. -/
inductive GoVal where
  | invalid
  | boolV (b : Bool)
  | intV (n : Int)                       -- the int family, as int64
  | uintV (n : Nat)                      -- the uint family, as uint64
  | floatV (q : ℚ)                       -- float32/float64
  | complexV (re im : ℚ)                 -- complex64/complex128
  | strV (s : List Char)
  | arrV (xs : List GoVal)               -- array / slice
  | mapV (entries : List (Token × GoVal)) -- string-keyed map
  | structV (fields : List (Token × Token × GoVal)) -- (name, json tag, value)
  | ptrV (v : Option GoVal)              -- pointer: nil or pointee

/-- `reflect.Value.Kind()`. -/
def GoVal.kind : GoVal → GoKind
  | .invalid => .invalid
  | .boolV _ => .boolK
  | .intV _ => .intK
  | .uintV _ => .uintK
  | .floatV _ => .floatK
  | .complexV _ _ => .complexK
  | .strV _ => .stringK
  | .arrV _ => .arrK
  | .mapV _ => .mapK
  | .structV _ => .structK
  | .ptrV _ => .ptrK

/-- `indirect(val)`: follow pointers (and interfaces, implicit here); the
`Elem` of a nil pointer is the invalid `reflect.Value`. -/
def indirect : GoVal → GoVal
  | .ptrV (some v) => indirect v
  | .ptrV none => .invalid
  | v => v

/-! ## Numeric parsing and formatting (`strconv`) -/

/-- Value of a decimal digit. -/
def digitVal : Char → Option Nat
  | c => if '0' ≤ c ∧ c ≤ '9' then some (c.toNat - '0'.toNat) else none

/-- Accumulate decimal digits; `none` on any non-digit. -/
def natOfDigits : List Char → Nat → Option Nat
  | [], acc => some acc
  | c :: r, acc =>
    match digitVal c with
    | some d => natOfDigits r (acc * 10 + d)
    | none => none

/-- `strconv.ParseInt(s, 10, 64)` (and `strconv.Atoi`): optional sign, one or
more decimal digits, result within the int64 range. -/
def goParseInt (s : List Char) : Option Int :=
  let sgn : Bool × List Char :=
    match s with
    | '-' :: r => (true, r)
    | '+' :: r => (false, r)
    | r => (false, r)
  match sgn.2 with
  | [] => none
  | ds =>
    match natOfDigits ds 0 with
    | none => none
    | some n =>
      let v : Int := if sgn.1 then -(n : Int) else (n : Int)
      if v < -(2 ^ 63) ∨ (2 ^ 63 : Int) ≤ v then none else some v

/-- `strconv.ParseUint(s, 10, 64)`: no sign, decimal digits, below `2^64`. -/
def goParseUint (s : List Char) : Option Nat :=
  match s with
  | [] => none
  | ds =>
    match natOfDigits ds 0 with
    | none => none
    | some n => if n < 2 ^ 64 then some n else none

/-- `strconv.ParseFloat(s, 64)`, restricted to plain decimal notation
(optional sign, digits, optional fraction).  Go additionally accepts
exponents, hex floats and inf/nan and rounds to the nearest float64; no
theorem below depends on those forms. -/
def goParseFloat (s : List Char) : Option ℚ :=
  let sgn : Bool × List Char :=
    match s with
    | '-' :: r => (true, r)
    | '+' :: r => (false, r)
    | r => (false, r)
  let parts := sgn.2.splitOn '.'
  match parts with
  | [intPart] =>
    match intPart, natOfDigits intPart 0 with
    | _ :: _, some n => some (if sgn.1 then -(n : ℚ) else (n : ℚ))
    | _, _ => none
  | [intPart, fracPart] =>
    match intPart ++ fracPart, natOfDigits (intPart ++ fracPart) 0 with
    | _ :: _, some n =>
      let q : ℚ := (n : ℚ) / ((10 : ℚ) ^ fracPart.length)
      some (if sgn.1 then -q else q)
    | _, _ => none
  | _ => none

/-- `strconv.ParseBool`: exactly these twelve strings. -/
def goParseBool (s : List Char) : Option Bool :=
  if s = ['1'] ∨ s = ['t'] ∨ s = ['T'] ∨ s = ['T','R','U','E'] ∨
     s = ['t','r','u','e'] ∨ s = ['T','r','u','e'] then some true
  else if s = ['0'] ∨ s = ['f'] ∨ s = ['F'] ∨ s = ['F','A','L','S','E'] ∨
     s = ['f','a','l','s','e'] ∨ s = ['F','a','l','s','e'] then some false
  else none

/-- `strconv.ParseComplex(s, 128)`, modelled only for a plain real part; the
full `a±bi` grammar is not exercised by any theorem. -/
def goParseComplex (s : List Char) : Option (ℚ × ℚ) :=
  (goParseFloat s).map (fun q => (q, 0))

/-- Decimal digits of a natural number (`strconv.FormatUint(n, 10)`). -/
def formatNat (n : Nat) : List Char := Nat.toDigits 10 n

/-- `strconv.FormatInt(i, 10)`. -/
def formatInt (i : Int) : List Char :=
  if i < 0 then '-' :: formatNat i.natAbs else formatNat i.toNat

/-- `strconv.FormatFloat(f, 'f', -1, 64)`: faithful for integral values
(`42.0` prints as `"42"`), which is the only case any theorem touches; Go's
shortest-round-trip decimal for other floats is outside the `ℚ` model. -/
def formatFloat (q : ℚ) : List Char :=
  if q.den = 1 then formatInt q.num
  else formatInt q.num ++ '/' :: formatNat q.den

/-- `strconv.FormatComplex(c, 'f', -1, 128)`, on the same footing as
`formatFloat`. -/
def formatComplex (re im : ℚ) : List Char :=
  '(' :: formatFloat re ++ '+' :: formatFloat im ++ ['i', ')']

/-- Truncation toward zero, Go's `int64(f)` conversion of a float. -/
def ratTrunc (q : ℚ) : Int := Int.tdiv q.num (q.den : Int)

/-- Two's-complement wrap into the int64 range. -/
def wrapInt64 (n : Int) : Int := (n + 2 ^ 63) % 2 ^ 64 - 2 ^ 63

/-- Wrap into the uint64 range (Go's `uint64(i)` conversion). -/
def wrapUint64 (n : Int) : Nat := (n % 2 ^ 64).toNat

/-! ## Traversal (`getValue`) and write-back (`setValue`) -/

/-- The `json` tag name: the tag text up to the first comma (the source
computes `jsonTag[:commaIdx]`). -/
def tagName (tag : Token) : Token := tag.takeWhile (fun c => c ≠ ',')

/-- Does a struct field's `json` tag make it match `key`?  The tag must be
non-empty and not `"-"`, and its name part must be non-empty and equal the
key. -/
def tagMatches (tag key : Token) : Bool :=
  tag ≠ [] && tag ≠ ['-'] && (tagName tag ≠ [] && tagName tag == key)

/-- `getValue(doc, key)`: one navigation step.  For arrays and slices the
index comes from `strconv.Atoi`; a negative index passes the `i >= len`
check and then `doc.Index(i)` panics inside reflect. -/
def getValue (doc : GoVal) (key : Token) : Res GoVal :=
  match doc with
  | .invalid => .err (newError .get .documentValueInvalid)
  | .ptrV none => .err (newError .get .documentValueNil)
  | .ptrV (some v) => getValue v key
  | .arrV xs =>
    match goParseInt key with
    | none => .err (newError .get (.invalidArrayIndex key))
    | some i =>
      if (xs.length : Int) ≤ i then .err (newError .get (.indexExceedsLength i xs.length))
      else if i < 0 then .crash
      else .ok (xs.getD i.toNat .invalid)
  | .mapV es =>
    match es.find? (fun e => e.1 == key) with
    | some e => .ok e.2
    | none => .err (newError .get (.mapHasNoKey key))
  | .structV fields =>
    match fields.find? (fun f => f.1 == key) with
    | some f => .ok f.2.2
    | none =>
      match fields.find? (fun f => tagMatches f.2.1 key) with
      | some f => .ok f.2.2
      | none => .err (newError .get (.structHasNoField key))
  | _ => .err (newError .get .primitiveHasNoFields)

/-- The token-by-token fold shared by `Get` and the read phase of `Set`. -/
def getLoop (cur : GoVal) : List Token → Res GoVal
  | [] => .ok cur
  | t :: rest =>
    match getValue cur t with
    | .ok v => getLoop v rest
    | .err e => .err e
    | .crash => .crash

/-- `Pointer.Get(doc)`.  (The final `CanInterface` guard of the source can
only fire for unexported struct fields, which the model does not contain.) -/
def Pointer.Get (p : Pointer) (doc : GoVal) : Res GoVal :=
  getLoop doc p

/-- `setValue(doc, value)`, returning the slot's new content.  The leading
interface unwrap of the source is an identity here; `CanSet` holds for every
slot `Set` reaches in the model.  In the structured branch the source
compares the full dynamic types; kinds stand in for them (no claim resolves
through that branch). -/
def setValue (doc value : GoVal) : Res GoVal :=
  if doc.kind = .invalid then .err (.plain .cannotSetInvalidDoc)
  else if value.kind = .invalid then .err (.plain .cannotSetInvalidValue)
  else
    let iv := indirect value
    match doc with
    | .ptrV _ | .arrV _ | .mapV _ | .structV _ =>
      if doc.kind = value.kind then .ok value
      else .err (newError .set (.docTypeMismatch doc.kind value.kind))
    | .strV _ =>
      match iv with
      | .strV s => .ok (.strV s)
      | .intV n => .ok (.strV (formatInt n))
      | .uintV n => .ok (.strV (formatNat n))
      | .floatV q => .ok (.strV (formatFloat q))
      | .complexV re im => .ok (.strV (formatComplex re im))
      | .boolV b => .ok (.strV (if b then ['t','r','u','e'] else ['f','a','l','s','e']))
      | _ => .err (newError .set (.typeMismatch iv.kind .stringK))
    | .intV _ =>
      match iv with
      | .intV n => .ok (.intV n)
      | .uintV n => .ok (.intV (wrapInt64 n))
      | .floatV q => .ok (.intV (wrapInt64 (ratTrunc q)))
      | .complexV re _ => .ok (.intV (wrapInt64 (ratTrunc re)))
      | .boolV b => .ok (.intV (if b then 1 else 0))
      | .strV s =>
        match goParseInt s with
        | some i => .ok (.intV i)
        | none => .err (newError .set (.conversionFailed .stringK .intK))
      | _ => .err (newError .set (.typeMismatch iv.kind .intK))
    | .uintV _ =>
      match iv with
      | .intV n => .ok (.uintV (wrapUint64 n))
      | .uintV n => .ok (.uintV n)
      | .floatV q => .ok (.uintV (wrapUint64 (ratTrunc q)))
      | .complexV re _ => .ok (.uintV (wrapUint64 (ratTrunc re)))
      | .boolV b => .ok (.uintV (if b then 1 else 0))
      | .strV s =>
        match goParseUint s with
        | some n => .ok (.uintV n)
        | none => .err (newError .set (.conversionFailed .stringK .uintK))
      | _ => .err (newError .set (.typeMismatch iv.kind .uintK))
    | .floatV _ =>
      match iv with
      | .intV n => .ok (.floatV (n : ℚ))
      | .uintV n => .ok (.floatV (n : ℚ))
      | .floatV q => .ok (.floatV q)
      | .complexV re _ => .ok (.floatV re)
      | .boolV b => .ok (.floatV (if b then 1 else 0))
      | .strV s =>
        match goParseFloat s with
        | some q => .ok (.floatV q)
        | none => .err (newError .set (.conversionFailed .stringK .floatK))
      | _ => .err (newError .set (.typeMismatch iv.kind .floatK))
    | .boolV _ =>
      match iv with
      | .intV n => .ok (.boolV (n != 0))
      | .uintV n => .ok (.boolV (n != 0))
      | .floatV q => .ok (.boolV (q != 0))
      | .complexV re _ => .ok (.boolV (re != 0))
      | .boolV b => .ok (.boolV b)
      | .strV s =>
        match goParseBool s with
        | some b => .ok (.boolV b)
        | none => .err (newError .set (.conversionFailed .stringK .boolK))
      | _ => .err (newError .set (.typeMismatch iv.kind .boolK))
    | .complexV _ _ =>
      match iv with
      | .intV n => .ok (.complexV (n : ℚ) 0)
      | .uintV n => .ok (.complexV (n : ℚ) 0)
      | .floatV q => .ok (.complexV q 0)
      | .complexV re im => .ok (.complexV re im)
      | .boolV b => .ok (.complexV (if b then 1 else 0) 0)
      | .strV s =>
        match goParseComplex s with
        | some c => .ok (.complexV c.1 c.2)
        | none => .err (newError .set (.conversionFailed .stringK .complexK))
      | _ => .err (newError .set (.typeMismatch iv.kind .complexK))
    | .invalid => .err (.plain .cannotSetInvalidDoc)

/-- `Pointer.Set(doc, value)`: resolve the slot with the same loop as `Get`,
then write through `setValue`; the model returns the slot's new content. -/
def Pointer.Set (p : Pointer) (doc value : GoVal) : Res GoVal :=
  match getLoop doc p with
  | .ok slot => setValue slot value
  | .err e => .err e
  | .crash => .crash

/-! ## Slice store model (for the non-mutation properties)

Go slices are views into heap arrays; `Parent`, `Join` and `RelativeTo`
promise not to touch the array behind the receiver.  The model makes the
heap explicit: a store is a list of arrays, a slice is an array id with an
offset, length and capacity.  `make` allocates a fresh id; `copy` and
`append` write through a slice into its array. -/

/-- A heap of string arrays. -/
abbrev Store := List (List Token)

/-- A Go slice header over a `Store`. -/
structure GoSlice where
  arr : Nat
  off : Nat
  len : Nat
  cap : Nat
deriving DecidableEq, Repr

/-- The array behind id `i` (empty when unallocated). -/
def Store.readArr (st : Store) (i : Nat) : List Token := st.getD i []

/-- The tokens a slice views. -/
def GoSlice.read (s : GoSlice) (st : Store) : List Token :=
  ((st.readArr s.arr).drop s.off).take s.len

/-- Write one cell of one array. -/
def Store.writeIdx (st : Store) (i j : Nat) (v : Token) : Store :=
  st.set i ((st.readArr i).set j v)

/-- Write consecutive cells starting at `j`. -/
def Store.writeRange (st : Store) (i j : Nat) : List Token → Store
  | [] => st
  | x :: xs => (st.writeIdx i j x).writeRange i (j + 1) xs

/-- `make([]string, n)`: a fresh array of `n` empty strings. -/
def Store.alloc (st : Store) (n : Nat) : Store × GoSlice :=
  (st ++ [List.replicate n []], ⟨st.length, 0, n, n⟩)

/-- `s[:k]` (keeps the capacity). -/
def GoSlice.trunc (s : GoSlice) (k : Nat) : GoSlice := ⟨s.arr, s.off, k, s.cap⟩

/-- `copy(dst, src)`: copies `min(len(dst), len(src))` tokens into `dst`'s
array. -/
def copyInto (st : Store) (dst src : GoSlice) : Store :=
  st.writeRange dst.arr dst.off ((src.read st).take dst.len)

/-- `append(s, xs...)`: write in place past the length while the capacity
suffices, otherwise move to a fresh array.  (Go grows capacity by a factor;
only freshness matters to the theorems.) -/
def appendS (st : Store) (s : GoSlice) (xs : List Token) : Store × GoSlice :=
  if s.len + xs.length ≤ s.cap then
    (st.writeRange s.arr (s.off + s.len) xs, ⟨s.arr, s.off, s.len + xs.length, s.cap⟩)
  else
    let (st1, t) := st.alloc (s.len + xs.length)
    (st1.writeRange t.arr 0 (s.read st ++ xs), t)

/-- Store-level `Parent`: `Pointer{}` for the root (no allocation is
observable through it), otherwise `make` + `copy` of all but the last
token. -/
def parentS (st : Store) (p : GoSlice) : Store × GoSlice :=
  if p.len = 0 then (st, ⟨st.length, 0, 0, 0⟩)
  else
    let a := st.alloc p.len
    (copyInto a.1 (a.2.trunc (p.len - 1)) p, a.2)

/-- Store-level `Join` over already-resolved element token lists (element
resolution is pure string parsing; an error aborts the loop early, which is
the same as running on the shorter list of resolved elements). -/
def joinS (st : Store) (p : GoSlice) (elems : List (List Token)) : Store × GoSlice :=
  let a := st.alloc p.len
  let st2 := copyInto a.1 a.2 p
  go st2 a.2 elems
where
  go (st : Store) (acc : GoSlice) : List (List Token) → Store × GoSlice
    | [] => (st, acc)
    | xs :: rest =>
      let r := appendS st acc xs
      go r.1 r.2 rest

/-- Store-level `RelativeTo` success path: `cmnParts := p[numCmnParts+1:]`
is a view into `p`'s array, which `make` + `copy` then duplicates; the error
paths return before writing anything. -/
def relativeToS (st : Store) (p : GoSlice) (k : Nat) : Store × GoSlice :=
  let cmn : GoSlice := ⟨p.arr, p.off + k, p.len - k, p.cap - k⟩
  let a := st.alloc cmn.len
  (copyInto a.1 a.2 cmn, a.2)

/-! ## Lemmas: escaping -/

theorem repl1_cons_eq (a : Char) (n l : List Char) :
    repl1 a n (a :: l) = n ++ repl1 a n l := by
  simp [repl1]

theorem repl1_cons_ne (c a : Char) (n l : List Char) (h : c ≠ a) :
    repl1 a n (c :: l) = c :: repl1 a n l := by
  simp [repl1, h]

theorem repl2_cons_ne (c a b : Char) (n l : List Char) (h : c ≠ a) :
    repl2 a b n (c :: l) = c :: repl2 a b n l := by
  cases l with
  | nil => simp [repl2]
  | cons d ds => simp [repl2, h]

theorem repl2_cons2_ne (a b c2 : Char) (n l : List Char) (h : c2 ≠ b) :
    repl2 a b n (a :: c2 :: l) = a :: repl2 a b n (c2 :: l) := by
  simp [repl2, h]

theorem repl2_cons2_eq (a b : Char) (n l : List Char) :
    repl2 a b n (a :: b :: l) = n ++ repl2 a b n l := by
  simp [repl2]

/-- Single-pass form of `escapeToken`, used to drive the inductions. -/
def escAux : List Char → List Char
  | [] => []
  | c :: r =>
    if c = '~' then '~' :: '0' :: escAux r
    else if c = '/' then '~' :: '1' :: escAux r
    else c :: escAux r

theorem escapeToken_eq_escAux : ∀ t, escapeToken t = escAux t := by
  intro t
  induction t with
  | nil => rfl
  | cons c r ih =>
    unfold escapeToken at *
    by_cases h1 : c = '~'
    · subst h1
      rw [repl1_cons_eq]
      show repl1 '/' ['~', '1'] ('~' :: '0' :: repl1 '~' ['~', '0'] r) = _
      rw [repl1_cons_ne '~' '/' ['~', '1'] _ (by decide),
        repl1_cons_ne '0' '/' ['~', '1'] _ (by decide), ih]
      simp [escAux]
    · by_cases h2 : c = '/'
      · subst h2
        rw [repl1_cons_ne '/' '~' ['~', '0'] _ (by decide), repl1_cons_eq, ih]
        simp [escAux]
      · rw [repl1_cons_ne c '~' ['~', '0'] _ h1, repl1_cons_ne c '/' ['~', '1'] _ h2, ih]
        simp [escAux, h1, h2]

theorem unesc_cons_tilde (x : List Char) :
    unescapeToken ('~' :: '0' :: x) = '~' :: unescapeToken x := by
  unfold unescapeToken
  rw [repl2_cons2_ne '~' '1' '0' ['/'] x (by decide),
    repl2_cons_ne '0' '~' '1' ['/'] x (by decide),
    repl2_cons2_eq '~' '0' ['~'] (repl2 '~' '1' ['/'] x)]
  rfl

theorem unesc_cons_slash (x : List Char) :
    unescapeToken ('~' :: '1' :: x) = '/' :: unescapeToken x := by
  unfold unescapeToken
  rw [repl2_cons2_eq '~' '1' ['/'] x]
  show repl2 '~' '0' ['~'] ('/' :: repl2 '~' '1' ['/'] x) = _
  rw [repl2_cons_ne '/' '~' '0' ['~'] (repl2 '~' '1' ['/'] x) (by decide)]

theorem unesc_cons_other (c : Char) (x : List Char) (h : c ≠ '~') :
    unescapeToken (c :: x) = c :: unescapeToken x := by
  unfold unescapeToken
  rw [repl2_cons_ne c '~' '1' ['/'] x h,
    repl2_cons_ne c '~' '0' ['~'] (repl2 '~' '1' ['/'] x) h]

theorem unescapeToken_escAux : ∀ t, unescapeToken (escAux t) = t := by
  intro t
  induction t with
  | nil => rfl
  | cons c r ih =>
    by_cases h1 : c = '~'
    · subst h1
      rw [show escAux ('~' :: r) = '~' :: '0' :: escAux r from by simp [escAux],
        unesc_cons_tilde, ih]
    · by_cases h2 : c = '/'
      · subst h2
        rw [show escAux ('/' :: r) = '~' :: '1' :: escAux r from by simp [escAux],
          unesc_cons_slash, ih]
      · rw [show escAux (c :: r) = c :: escAux r from by simp [escAux, h1, h2],
          unesc_cons_other c _ h1, ih]

/-- Unescaping undoes escaping, for every string. -/
theorem unescape_escape (t : Token) : unescapeToken (escapeToken t) = t := by
  rw [escapeToken_eq_escAux]
  exact unescapeToken_escAux t

/-- Claim C5: for every string `s`, `unescapeToken (escapeToken s) = s`,
where escaping replaces `~` by `~0` before `/` by `~1` and unescaping
replaces `~1` by `/` before `~0` by `~`; concretely `escapeToken "a/b~c" =
"a~1b~0c"` and unescaping that yields `"a/b~c"` again. -/
theorem escape_unescape_roundTrip :
    (∀ s : Token, unescapeToken (escapeToken s) = s) ∧
    escapeToken ['a', '/', 'b', '~', 'c'] = ['a', '~', '1', 'b', '~', '0', 'c'] ∧
    unescapeToken ['a', '~', '1', 'b', '~', '0', 'c'] = ['a', '/', 'b', '~', 'c'] :=
  ⟨unescape_escape, by decide, by decide⟩

/-! ## Lemmas: parse / String round trip -/

theorem not_mem_repl1 (a : Char) (n : List Char) (h : a ∉ n) :
    ∀ l, a ∉ repl1 a n l := by
  intro l
  induction l with
  | nil => simp [repl1]
  | cons c r ih =>
    by_cases hc : c = a
    · subst hc
      rw [repl1_cons_eq]
      simp only [List.mem_append]
      rintro (hm | hm)
      · exact h hm
      · exact ih hm
    · rw [repl1_cons_ne c a n r hc]
      simp only [List.mem_cons]
      rintro (hm | hm)
      · exact hc hm.symm
      · exact ih hm

/-- Escaped tokens never contain the separator. -/
theorem slash_not_mem_escapeToken (t : Token) : '/' ∉ escapeToken t :=
  not_mem_repl1 '/' ['~', '1'] (by decide) _

theorem splitSlash_no_slash (l : List Char) (h : '/' ∉ l) : splitSlash l = [l] := by
  induction l with
  | nil => rfl
  | cons c r ih =>
    have hc : c ≠ '/' := fun e => h (e ▸ List.mem_cons_self c r)
    have hr : '/' ∉ r := fun m => h (List.mem_cons_of_mem c m)
    simp [splitSlash, hc, ih hr]

theorem splitSlash_append (l m : List Char) (h : '/' ∉ l) :
    splitSlash (l ++ '/' :: m) = l :: splitSlash m := by
  induction l with
  | nil => simp [splitSlash]
  | cons c r ih =>
    have hc : c ≠ '/' := fun e => h (e ▸ List.mem_cons_self c r)
    have hr : '/' ∉ r := fun hm => h (List.mem_cons_of_mem c hm)
    rw [List.cons_append]
    rw [show splitSlash (c :: (r ++ '/' :: m)) =
      (match splitSlash (r ++ '/' :: m) with
        | t :: ts => (c :: t) :: ts
        | [] => [[c]]) from by simp [splitSlash, hc]]
    rw [ih hr]

theorem splitSlash_joinSlash :
    ∀ ts : List (List Char), ts ≠ [] → (∀ t ∈ ts, '/' ∉ t) →
      splitSlash (joinSlash ts) = ts := by
  intro ts
  induction ts with
  | nil => intro h; exact absurd rfl h
  | cons x xs ih =>
    intro _ hmem
    cases xs with
    | nil =>
      show splitSlash (joinSlash [x]) = [x]
      rw [show joinSlash [x] = x from rfl]
      exact splitSlash_no_slash x (hmem x (List.mem_cons_self x []))
    | cons y ys =>
      rw [show joinSlash (x :: y :: ys) = x ++ '/' :: joinSlash (y :: ys) from rfl,
        splitSlash_append x _ (hmem x (List.mem_cons_self x _)),
        ih (by simp) (fun t ht => hmem t (List.mem_cons_of_mem x ht))]

/-- `parse` is a left inverse of `Pointer.String` on every token sequence. -/
theorem parse_String (p : Pointer) : parse (Pointer.String p) = .ok p := by
  cases p with
  | nil => rfl
  | cons t ts =>
    rw [show Pointer.String (t :: ts) = '/' :: joinSlash ((t :: ts).map escapeToken)
      from by simp [Pointer.String]]
    rw [show parse ('/' :: joinSlash ((t :: ts).map escapeToken)) =
      .ok ((splitSlash (joinSlash ((t :: ts).map escapeToken))).map unescapeToken)
      from by simp [parse]]
    rw [splitSlash_joinSlash _ (by simp)
      (fun x hx => by
        obtain ⟨w, _, rfl⟩ := List.mem_map.mp hx
        exact slash_not_mem_escapeToken w)]
    rw [List.map_map]
    have hmap : ∀ l : List Token, List.map (unescapeToken ∘ escapeToken) l = l := by
      intro l
      induction l with
      | nil => rfl
      | cons a as iha => simp [Function.comp, unescape_escape, iha]
    rw [hmap]

/-- `New` on the string form of any pointer returns that pointer. -/
theorem newFromString_String (u : UrlParser) (p : Pointer) :
    newFromString u (Pointer.String p) = .ok p := by
  cases p with
  | nil => rfl
  | cons t ts =>
    have hs : Pointer.String (t :: ts) = '/' :: joinSlash ((t :: ts).map escapeToken) := by
      simp [Pointer.String]
    rw [hs]
    rw [show newFromString u ('/' :: joinSlash ((t :: ts).map escapeToken)) =
      parse ('/' :: joinSlash ((t :: ts).map escapeToken)) from by
        unfold newFromString
        simp]
    rw [← hs, parse_String]

/-- Claim C1: for every pointer `p` produced by `Parse`/`New` from a bare
`/`-leading or a `#`-leading string, `Parse(p.String())` succeeds and
`Parse(p.String()).String() = p.String()` — `String` is the exact inverse of
`Parse` on such pointers. -/
theorem parse_string_roundTrip (u : UrlParser) (v : List Char) (p : Pointer)
    (_hform : v.head? = some '/' ∨ v.head? = some '#')
    (_hok : New u (.str v) = .ok p) :
    New u (.str (Pointer.String p)) = .ok p ∧
    ∃ q, New u (.str (Pointer.String p)) = .ok q ∧
      Pointer.String q = Pointer.String p := by
  refine ⟨newFromString_String u p, p, newFromString_String u p, rfl⟩

/-- Witness for C1 at the concrete input `"/foo"`. -/
theorem parse_string_roundTrip_witness :
    (['/', 'f', 'o', 'o'].head? = some '/' ∨ ['/', 'f', 'o', 'o'].head? = some '#') ∧
    New noURL (.str ['/', 'f', 'o', 'o']) = .ok [['f', 'o', 'o']] ∧
    New noURL (.str (Pointer.String [['f', 'o', 'o']])) = .ok [['f', 'o', 'o']] :=
  ⟨Or.inl rfl, by decide,
    (parse_string_roundTrip noURL ['/', 'f', 'o', 'o'] [['f', 'o', 'o']]
      (Or.inl rfl) (by decide)).1⟩

/-! ## Parent, RelativeTo, array indexing: behaviour at the claimed inputs -/

/-- Claim C2 (documents the code bug): `Parent` of the two-token pointer
`/a/b` keeps the length and blanks the last token — the source allocates
`len(p)` cells but copies only `len(p)-1` — so the result is `["a", ""]`
(string form `/a/`), not `["a"]`; on the root it does return the root. -/
theorem parent_blanks_last_token :
    Pointer.Parent [['a'], ['b']] = [['a'], []] ∧
    Pointer.Parent [['a'], ['b']] ≠ [['a']] ∧
    (Pointer.Parent [['a'], ['b']]).length = 2 ∧
    Pointer.String (Pointer.Parent [['a'], ['b']]) = ['/', 'a', '/'] ∧
    Pointer.Parent [] = [] := by
  refine ⟨rfl, by decide, rfl, rfl, rfl⟩

/-- Claim C3 (documents the code bug): `RelativeTo` with an empty prefix
drops the first token (`/foo` relative to the root gives the root, not
`/foo`) and panics when the receiver is also empty, because the source
slices `p[numCmnParts+1:]` with `numCmnParts = 0` when the comparison loop
never ran; non-empty prefixes behave as the claim states. -/
theorem relativeTo_empty_other :
    Pointer.RelativeTo noURL [['f', 'o', 'o']] (.ptr []) = .ok [] ∧
    (Res.ok ([] : Pointer)) ≠ .ok [['f', 'o', 'o']] ∧
    Pointer.RelativeTo noURL [] (.ptr []) = .crash ∧
    Pointer.RelativeTo noURL [['a'], ['b']] (.ptr [['a']]) = .ok [['b']] ∧
    Pointer.RelativeTo noURL [['a'], ['b']] (.ptr [['x']]) =
      .err (.plain (.doesNotStartWith [['a'], ['b']] [['x']])) ∧
    Pointer.RelativeTo noURL [['a']] (.ptr [['a'], ['b']]) =
      .err (.plain (.doesNotStartWith [['a']] [['a'], ['b']])) := by
  refine ⟨rfl, by decide, rfl, rfl, rfl, rfl⟩

/-- The two-element sequence of the spec's document `{"foo":["bar","baz"]}`. -/
def fooArr : GoVal := .arrV [.strV ['b', 'a', 'r'], .strV ['b', 'a', 'z']]

/-- The document `{"foo":["bar","baz"]}`. -/
def fooDoc : GoVal := .mapV [(['f', 'o', 'o'], fooArr)]

/-- Claim C4 (documents the code bug): on a sequence, the token `"bar"`
yields the typed invalid-index `Get` error and `"3"` the typed error
carrying index 3 and length 2, but `"-1"` — which the claim says must also
yield the invalid-index error — parses under `Atoi`, passes the
`i >= len` check and panics inside `reflect.Value.Index`. -/
theorem sequence_index_errors :
    getValue fooArr ['b', 'a', 'r'] =
      .err (.typed ⟨.invalidArrayIndex ['b', 'a', 'r'], none, .get⟩) ∧
    getValue fooArr ['3'] =
      .err (.typed ⟨.indexExceedsLength 3 2, none, .get⟩) ∧
    getValue fooArr ['-', '1'] = .crash ∧
    Pointer.Get [['f', 'o', 'o'], ['b', 'a', 'r']] fooDoc =
      .err (.typed ⟨.invalidArrayIndex ['b', 'a', 'r'], none, .get⟩) ∧
    Pointer.Get [['f', 'o', 'o'], ['3']] fooDoc =
      .err (.typed ⟨.indexExceedsLength 3 2, none, .get⟩) ∧
    Pointer.Get [['f', 'o', 'o'], ['-', '1']] fooDoc = .crash := by
  refine ⟨rfl, rfl, rfl, rfl, rfl, rfl⟩

/-- Claim C6: `Set` into a scalar slot coerces the new value to the slot's
kind — a string slot receiving the integer 42 stores `"42"`, a float slot
receiving `true` stores `1.0`, and an integer slot receiving a string
parses it base-10, failing with the typed `Set` "conversion failed" error
exactly when the parse fails. -/
theorem set_scalar_coercion :
    (∀ old : Token, setValue (.strV old) (.intV 42) = .ok (.strV ['4', '2'])) ∧
    (∀ q : ℚ, setValue (.floatV q) (.boolV true) = .ok (.floatV 1)) ∧
    (∀ (n : Int) (s : Token),
      setValue (.intV n) (.strV s) =
        (match goParseInt s with
         | some i => .ok (.intV i)
         | none => .err (newError .set (.conversionFailed .stringK .intK)))) := by
  refine ⟨fun old => rfl, fun q => rfl, fun n s => rfl⟩

/-- Claim C10: `New` on an argument of any other dynamic type returns the
typed `InvalidPointer` "invalid value for pointer" error, and `Join` and
`RelativeTo` likewise return an error (a plain one) for such an argument
instead of panicking. -/
theorem invalid_argument_errors :
    (∀ (u : UrlParser) (ty : List Char),
      New u (.other ty) = .err (newError .invalidJSONPointer (.invalidValueForPointer ty))) ∧
    (∀ (u : UrlParser) (acc : Pointer) (ty : List Char) (rest : List PtrArg),
      joinLoop u acc (.other ty :: rest) = .err (.plain (.invalidValueForPointer ty))) ∧
    (∀ (u : UrlParser) (p : Pointer) (ty : List Char),
      Pointer.Join u p [.other ty] = .err (.plain (.invalidValueForPointer ty))) ∧
    (∀ (u : UrlParser) (p : Pointer) (ty : List Char),
      Pointer.RelativeTo u p (.other ty) = .err (.plain (.invalidValueForPointer ty))) := by
  refine ⟨fun u ty => rfl, fun u acc ty rest => rfl, fun u p ty => rfl, fun u p ty => rfl⟩

/-! ## Lemmas: when parsing fails -/

theorem parse_err_iff (s : List Char) :
    (∃ e, parse s = .err e) ↔ (s ≠ [] ∧ s.head? ≠ some '/') := by
  cases s with
  | nil => simp [parse]
  | cons c r =>
    by_cases hc : c = '/'
    · subst hc
      simp [parse]
    · simp [parse, hc]

theorem parse_err_shape (s : List Char) (e : GoError) (h : parse s = .err e) :
    e = newError .invalidJSONPointer .mustBeginWithSlash := by
  cases s with
  | nil => exact absurd h (by simp [parse])
  | cons c r =>
    by_cases hc : c = '/'
    · subst hc
      exact absurd h (by simp [parse])
    · have h2 : parse (c :: r) = .err (newError .invalidJSONPointer .mustBeginWithSlash) := by
        simp [parse, hc]
      rw [h2] at h
      exact (Res.err.inj h).symm

theorem parse_ok_of_head_slash (s : List Char) (h : s.head? = some '/') :
    ∃ p, parse s = .ok p := by
  cases s with
  | nil => exact absurd h (by simp)
  | cons c r =>
    have hc : c = '/' := by simpa using h
    subst hc
    exact ⟨(splitSlash r).map unescapeToken, by simp [parse]⟩

/-- Claim C7: `Parse`/`New` on a string fails — always with an
`InvalidPointer`-typed error — exactly when the input cannot be parsed as a
URI or the non-empty pointer body (the URI's fragment, when one is used)
does not start with `/`; consequently every `/`-leading string parses,
including bodies with `~2` or a trailing `~`. -/
theorem new_string_failure_iff (u : UrlParser) (v : List Char) :
    ((∃ e, newFromString u v = .err e) ↔
      (v ≠ [] ∧ v ≠ ['#'] ∧ v.head? ≠ some '/' ∧
        (match u v with
         | .error _ => True
         | .ok frag => frag ≠ [] ∧ frag.head? ≠ some '/'))) ∧
    (∀ e, newFromString u v = .err e →
      ∃ te, e = .typed te ∧ te.errType = .invalidJSONPointer) ∧
    (v.head? = some '/' → ∃ p, newFromString u v = .ok p) ∧
    newFromString u ['/', '~', '2'] = .ok [['~', '2']] ∧
    newFromString u ['/', 'a', '~'] = .ok [['a', '~']] := by
  refine ⟨?_, ?_, ?_, rfl, rfl⟩
  · unfold newFromString
    by_cases h0 : v = [] ∨ v = ['#']
    · rw [if_pos h0]
      constructor
      · rintro ⟨e, he⟩
        exact absurd he (by simp)
      · rintro ⟨h1, h2, -⟩
        rcases h0 with h0 | h0 <;> [exact absurd h0 h1; exact absurd h0 h2]
    · rw [if_neg h0]
      push_neg at h0
      by_cases h1 : v.head? = some '/'
      · rw [if_pos h1]
        constructor
        · rintro ⟨e, he⟩
          obtain ⟨p, hp⟩ := parse_ok_of_head_slash v h1
          rw [hp] at he
          exact absurd he (by simp)
        · rintro ⟨-, -, hbad, -⟩
          exact absurd h1 hbad
      · rw [if_neg h1]
        cases hu : u v with
        | error m =>
          simp only [hu]
          exact ⟨fun _ => ⟨h0.1, h0.2, h1, trivial⟩, fun _ => ⟨_, rfl⟩⟩
        | ok frag =>
          simp only [hu]
          rw [parse_err_iff frag]
          constructor
          · intro hf
            exact ⟨h0.1, h0.2, h1, hf⟩
          · rintro ⟨-, -, -, hf⟩
            exact hf
  · intro e he
    unfold newFromString at he
    by_cases h0 : v = [] ∨ v = ['#']
    · rw [if_pos h0] at he
      exact absurd he (by simp)
    · rw [if_neg h0] at he
      by_cases h1 : v.head? = some '/'
      · rw [if_pos h1] at he
        rw [parse_err_shape v e he]
        exact ⟨_, rfl, rfl⟩
      · rw [if_neg h1] at he
        cases hu : u v with
        | error m =>
          rw [hu] at he
          refine ⟨_, (Res.err.inj he).symm, rfl⟩
        | ok frag =>
          rw [hu] at he
          rw [parse_err_shape frag e he]
          exact ⟨_, rfl, rfl⟩
  · intro h1
    unfold newFromString
    by_cases h0 : v = [] ∨ v = ['#']
    · rw [if_pos h0]
      exact ⟨[], rfl⟩
    · rw [if_neg h0, if_pos h1]
      exact parse_ok_of_head_slash v h1

/-- Witness for C7 at the concrete inputs `"://"`-like unparsable string
(oracle failure) and the bare string `"/~2"`. -/
theorem new_string_failure_iff_witness :
    (∃ te, (GoError.typed ⟨.failedToParseURL [], some (.urlErr []), .invalidJSONPointer⟩)
        = .typed te ∧ te.errType = .invalidJSONPointer) ∧
    (∃ p, newFromString noURL ['/', 'f'] = .ok p) :=
  ⟨(new_string_failure_iff noURL ['x']).2.1 _ (by decide),
   (new_string_failure_iff noURL ['/', 'f']).2.2.1 rfl⟩

/-! ## Lemmas: error taxonomy -/

theorem getValue_err_shape : ∀ (doc : GoVal) (key : Token) (e : GoError),
    getValue doc key = .err e →
      ∃ te, e = .typed te ∧ te.errType = .get ∧ te.cause = none := by
  intro doc key
  induction doc, key using getValue.induct <;> intro e h
  case case3 key v ih => exact ih e h
  case case13 t key h1 h2 h3 h4 h5 h6 =>
    cases t with
    | invalid => exact absurd rfl h1
    | ptrV v =>
      cases v with
      | none => exact absurd rfl h2
      | some w => exact absurd rfl (h3 w)
    | arrV xs => exact absurd rfl (h4 xs)
    | mapV es => exact absurd rfl (h5 es)
    | structV fs => exact absurd rfl (h6 fs)
    | boolV b => exact ⟨_, (Res.err.inj h).symm, rfl, rfl⟩
    | intV n => exact ⟨_, (Res.err.inj h).symm, rfl, rfl⟩
    | uintV n => exact ⟨_, (Res.err.inj h).symm, rfl, rfl⟩
    | floatV q => exact ⟨_, (Res.err.inj h).symm, rfl, rfl⟩
    | complexV re im => exact ⟨_, (Res.err.inj h).symm, rfl, rfl⟩
    | strV s => exact ⟨_, (Res.err.inj h).symm, rfl, rfl⟩
  all_goals simp [getValue, *] at h
  all_goals exact ⟨_, h.symm, rfl, rfl⟩

theorem setValue_err_shape (doc value : GoVal) (e : GoError)
    (h : setValue doc value = .err e) :
    (∃ te, e = .typed te ∧ te.errType = .set ∧ te.cause = none) ∨
    e = .plain .cannotSetInvalidDoc ∨ e = .plain .cannotSetInvalidValue := by
  unfold setValue at h
  dsimp only at h
  repeat' split at h
  all_goals
    first
    | (injection h with h2
       subst h2
       first
       | exact Or.inl ⟨_, rfl, rfl, rfl⟩
       | exact Or.inr (Or.inl rfl)
       | exact Or.inr (Or.inr rfl))
    | injection h

theorem newFromString_err_typed (u : UrlParser) (v : List Char) (e : GoError)
    (he : newFromString u v = .err e) :
    ∃ te, e = .typed te ∧ te.errType = .invalidJSONPointer := by
  unfold newFromString at he
  by_cases h0 : v = [] ∨ v = ['#']
  · rw [if_pos h0] at he
    exact absurd he (by simp)
  · rw [if_neg h0] at he
    by_cases h1 : v.head? = some '/'
    · rw [if_pos h1] at he
      rw [parse_err_shape v e he]
      exact ⟨_, rfl, rfl⟩
    · rw [if_neg h1] at he
      cases hu : u v with
      | error m =>
        rw [hu] at he
        exact ⟨_, (Res.err.inj he).symm, rfl⟩
      | ok frag =>
        rw [hu] at he
        rw [parse_err_shape frag e he]
        exact ⟨_, rfl, rfl⟩

theorem new_err_typed (u : UrlParser) (a : PtrArg) (e : GoError)
    (h : New u a = .err e) :
    ∃ te, e = .typed te ∧ te.errType = .invalidJSONPointer := by
  cases a with
  | ptr p => exact absurd h (by simp [New])
  | str s => exact newFromString_err_typed u s e h
  | url f =>
    rw [parse_err_shape f e h]
    exact ⟨_, rfl, rfl⟩
  | other ty => exact ⟨_, (Res.err.inj h).symm, rfl⟩

theorem relCore_err_shape (p o : Pointer) (e : GoError) (h : relCore p o = .err e) :
    e = .plain (.doesNotStartWith p o) := by
  unfold relCore at h
  dsimp only at h
  repeat' split at h
  all_goals first
    | (injection h with h2; exact h2.symm)
    | injection h

/-- Claim C8 counterexample: `RelativeTo`'s mismatch error is a plain
`fmt.Errorf` value, not the typed `*Error` (so it has no `Unwrap` method),
and an integer-slot coercion failure, while typed, carries no cause — the
underlying `strconv.ParseInt` error is not wrapped. -/
theorem errors_unwrap_counterexample :
    Pointer.RelativeTo noURL [['a']] (.ptr [['b']]) =
      .err (.plain (.doesNotStartWith [['a']] [['b']])) ∧
    (∀ te, GoError.plain (.doesNotStartWith [['a']] [['b']]) ≠ .typed te) ∧
    setValue (.intV 0) (.strV ['x']) =
      .err (.typed ⟨.conversionFailed .stringK .intK, none, .set⟩) := by
  refine ⟨rfl, ?_, rfl⟩
  intro te h
  cases h

/-- Claim C8 (amended): errors from `New`/`Parse` (all `InvalidPointer`),
from the `Get` traversal and from `Set`'s kind switch are typed `*Error`
values supporting cause-unwrapping, and `New`'s URL failure wraps the URL
error as its cause; but `Join`/`RelativeTo` argument and mismatch errors and
`Set`'s validity-precondition errors are plain errors without `Unwrap`, and
`Get`/`Set` errors never carry a wrapped cause — in particular a coercion
failure does not wrap the underlying numeric-parse error. -/
theorem errors_unwrap_amended :
    (∀ (u : UrlParser) (a : PtrArg) (e : GoError), New u a = .err e →
      ∃ te, e = .typed te ∧ te.errType = .invalidJSONPointer) ∧
    (∀ (doc : GoVal) (key : Token) (e : GoError), getValue doc key = .err e →
      ∃ te, e = .typed te ∧ te.errType = .get ∧ te.cause = none) ∧
    (∀ (doc value : GoVal) (e : GoError), setValue doc value = .err e →
      (∃ te, e = .typed te ∧ te.errType = .set ∧ te.cause = none) ∨
      e = .plain .cannotSetInvalidDoc ∨ e = .plain .cannotSetInvalidValue) ∧
    (∀ (p o : Pointer) (e : GoError), relCore p o = .err e →
      e = .plain (.doesNotStartWith p o)) ∧
    (∀ (u : UrlParser) (v m : List Char), v ≠ [] → v ≠ ['#'] →
      v.head? ≠ some '/' → u v = .error m →
      newFromString u v =
        .err (.typed ⟨.failedToParseURL m, some (.urlErr m), .invalidJSONPointer⟩)) := by
  refine ⟨new_err_typed, getValue_err_shape, setValue_err_shape, relCore_err_shape,
    fun u v m h1 h2 h3 hu => ?_⟩
  unfold newFromString
  rw [if_neg (by rintro (rfl | rfl) <;> [exact h1 rfl; exact h2 rfl]), if_neg h3, hu]
  rfl

/-- Witness for C8's amended statement at concrete erroring inputs. -/
theorem errors_unwrap_amended_witness :
    (∃ te, (newError .get .documentValueInvalid) = .typed te ∧
      te.errType = .get ∧ te.cause = none) ∧
    ((∃ te, GoError.plain ErrMsg.cannotSetInvalidDoc = .typed te ∧
        te.errType = .set ∧ te.cause = none) ∨
      GoError.plain ErrMsg.cannotSetInvalidDoc = .plain .cannotSetInvalidDoc ∨
      GoError.plain ErrMsg.cannotSetInvalidDoc = .plain .cannotSetInvalidValue) :=
  ⟨errors_unwrap_amended.2.1 .invalid [] _ rfl,
   errors_unwrap_amended.2.2.1 .invalid .invalid _ rfl⟩

/-! ## Lemmas: the slice store -/

theorem readArr_writeIdx_ne (st : Store) (i j k : Nat) (v : Token) (h : k ≠ i) :
    (st.writeIdx i j v).readArr k = st.readArr k := by
  unfold Store.writeIdx Store.readArr
  simp only [List.getD_eq_getElem?_getD]
  rw [List.getElem?_set_ne (Ne.symm h)]

theorem readArr_writeRange_ne (xs : List Token) :
    ∀ (st : Store) (i j k : Nat), k ≠ i →
      (st.writeRange i j xs).readArr k = st.readArr k := by
  induction xs with
  | nil => intro st i j k _; rfl
  | cons x r ih =>
    intro st i j k h
    show ((st.writeIdx i j x).writeRange i (j + 1) r).readArr k = _
    rw [ih _ i (j + 1) k h, readArr_writeIdx_ne st i j k x h]

theorem length_writeIdx (st : Store) (i j : Nat) (v : Token) :
    (st.writeIdx i j v).length = st.length := by
  simp [Store.writeIdx]

theorem length_writeRange (xs : List Token) :
    ∀ (st : Store) (i j : Nat), (st.writeRange i j xs).length = st.length := by
  induction xs with
  | nil => intro st i j; rfl
  | cons x r ih =>
    intro st i j
    show ((st.writeIdx i j x).writeRange i (j + 1) r).length = _
    rw [ih, length_writeIdx]

theorem readArr_alloc_lt (st : Store) (n k : Nat) (h : k < st.length) :
    ((st.alloc n).1).readArr k = st.readArr k := by
  unfold Store.alloc Store.readArr
  simp only [List.getD_eq_getElem?_getD]
  rw [List.getElem?_append_left h]

/-- `st'` agrees with `st` on every array id below `n`. -/
def framedBelow (st st' : Store) (n : Nat) : Prop :=
  ∀ k, k < n → st'.readArr k = st.readArr k

theorem framedBelow_trans {st1 st2 st3 : Store} {n : Nat}
    (a : framedBelow st1 st2 n) (b : framedBelow st2 st3 n) :
    framedBelow st1 st3 n :=
  fun k hk => (b k hk).trans (a k hk)

theorem read_congr (s : GoSlice) (st st' : Store)
    (h : st'.readArr s.arr = st.readArr s.arr) : s.read st' = s.read st := by
  unfold GoSlice.read
  rw [h]

theorem parentS_fresh (st : Store) (p : GoSlice) :
    framedBelow st (parentS st p).1 st.length ∧
    st.length ≤ (parentS st p).2.arr := by
  unfold parentS
  by_cases hp : p.len = 0
  · rw [if_pos hp]
    exact ⟨fun k _ => rfl, Nat.le_refl _⟩
  · rw [if_neg hp]
    refine ⟨fun k hk => ?_, Nat.le_refl _⟩
    show (copyInto (st.alloc p.len).1 ((st.alloc p.len).2.trunc (p.len - 1)) p).readArr k = _
    unfold copyInto
    dsimp only [Store.alloc, GoSlice.trunc]
    rw [readArr_writeRange_ne _ _ _ _ _ (Nat.ne_of_lt hk)]
    exact readArr_alloc_lt st p.len k hk

theorem appendS_fresh (st : Store) (s : GoSlice) (xs : List Token) (n : Nat)
    (hn : n ≤ st.length) (hs : n ≤ s.arr) :
    framedBelow st (appendS st s xs).1 n ∧
    n ≤ (appendS st s xs).1.length ∧
    n ≤ (appendS st s xs).2.arr := by
  unfold appendS
  by_cases hc : s.len + xs.length ≤ s.cap
  · rw [if_pos hc]
    refine ⟨fun k hk => ?_, ?_, hs⟩
    · exact readArr_writeRange_ne _ _ _ _ _ (Nat.ne_of_lt (Nat.lt_of_lt_of_le hk hs))
    · rw [length_writeRange]
      exact hn
  · rw [if_neg hc]
    dsimp only [Store.alloc]
    refine ⟨fun k hk => ?_, ?_, hn⟩
    · rw [readArr_writeRange_ne _ _ _ _ _ (Nat.ne_of_lt (Nat.lt_of_lt_of_le hk hn))]
      exact readArr_alloc_lt st _ k (Nat.lt_of_lt_of_le hk hn)
    · rw [length_writeRange]
      simp only [List.length_append, List.length_singleton]
      omega

theorem joinS_go_fresh :
    ∀ (elems : List (List Token)) (st : Store) (acc : GoSlice) (n : Nat),
      n ≤ st.length → n ≤ acc.arr →
      framedBelow st (joinS.go st acc elems).1 n ∧
      n ≤ (joinS.go st acc elems).2.arr := by
  intro elems
  induction elems with
  | nil => intro st acc n _ hs; exact ⟨fun k _ => rfl, hs⟩
  | cons xs rest ih =>
    intro st acc n hn hs
    show framedBelow st (joinS.go (appendS st acc xs).1 (appendS st acc xs).2 rest).1 n ∧ _
    obtain ⟨f1, h1, h2⟩ := appendS_fresh st acc xs n hn hs
    obtain ⟨f2, h3⟩ := ih (appendS st acc xs).1 (appendS st acc xs).2 n h1 h2
    exact ⟨framedBelow_trans f1 f2, h3⟩

theorem joinS_fresh (st : Store) (p : GoSlice) (elems : List (List Token)) :
    framedBelow st (joinS st p elems).1 st.length ∧
    st.length ≤ (joinS st p elems).2.arr := by
  unfold joinS
  dsimp only
  have hstep : framedBelow st (copyInto (st.alloc p.len).1 (st.alloc p.len).2 p) st.length := by
    intro k hk
    unfold copyInto
    dsimp only [Store.alloc]
    rw [readArr_writeRange_ne _ _ _ _ _ (Nat.ne_of_lt hk)]
    exact readArr_alloc_lt st p.len k hk
  have hlen : st.length ≤ (copyInto (st.alloc p.len).1 (st.alloc p.len).2 p).length := by
    unfold copyInto
    rw [length_writeRange]
    dsimp only [Store.alloc]
    simp only [List.length_append, List.length_singleton]
    omega
  have harr : st.length ≤ ((st.alloc p.len).2).arr := Nat.le_refl _
  obtain ⟨f2, h2⟩ := joinS_go_fresh elems
    (copyInto (st.alloc p.len).1 (st.alloc p.len).2 p) (st.alloc p.len).2
    st.length hlen harr
  exact ⟨framedBelow_trans hstep f2, h2⟩

theorem relativeToS_fresh (st : Store) (p : GoSlice) (k : Nat) :
    framedBelow st (relativeToS st p k).1 st.length ∧
    st.length ≤ (relativeToS st p k).2.arr := by
  unfold relativeToS
  dsimp only
  refine ⟨fun i hi => ?_, Nat.le_refl _⟩
  unfold copyInto
  dsimp only [Store.alloc]
  rw [readArr_writeRange_ne _ _ _ _ _ (Nat.ne_of_lt hi)]
  exact readArr_alloc_lt st _ i hi

/-- Claim C9: `Parent`, `Join` and `RelativeTo` never mutate the receiver:
for a pointer `p` living in the store, each operation leaves `p`'s token
sequence (hence `p.String()`) unchanged, and returns a slice over a fresh
array, so that writing through the result afterwards still leaves `p`
unchanged. -/
theorem derived_ops_no_mutation (st : Store) (p : GoSlice) (hp : p.arr < st.length) :
    (p.read (parentS st p).1 = p.read st ∧
     Pointer.String (p.read (parentS st p).1) = Pointer.String (p.read st) ∧
     ∀ j v, p.read (((parentS st p).1).writeIdx (parentS st p).2.arr j v) = p.read st) ∧
    (∀ elems,
      p.read (joinS st p elems).1 = p.read st ∧
      Pointer.String (p.read (joinS st p elems).1) = Pointer.String (p.read st) ∧
      ∀ j v, p.read (((joinS st p elems).1).writeIdx (joinS st p elems).2.arr j v) = p.read st) ∧
    (∀ k,
      p.read (relativeToS st p k).1 = p.read st ∧
      Pointer.String (p.read (relativeToS st p k).1) = Pointer.String (p.read st) ∧
      ∀ j v, p.read (((relativeToS st p k).1).writeIdx (relativeToS st p k).2.arr j v) =
        p.read st) := by
  have main :
      ∀ (st' : Store) (q : GoSlice), framedBelow st st' st.length → st.length ≤ q.arr →
        p.read st' = p.read st ∧
        Pointer.String (p.read st') = Pointer.String (p.read st) ∧
        ∀ j v, p.read (st'.writeIdx q.arr j v) = p.read st := by
    intro st' q hf hq
    have hread : p.read st' = p.read st := read_congr p st st' (hf p.arr hp)
    refine ⟨hread, by rw [hread], fun j v => ?_⟩
    have hne : p.arr ≠ q.arr := Nat.ne_of_lt (Nat.lt_of_lt_of_le hp hq)
    calc p.read (st'.writeIdx q.arr j v)
        = p.read st' := read_congr p st' _ (readArr_writeIdx_ne st' q.arr j p.arr v hne)
      _ = p.read st := hread
  obtain ⟨hpf, hpa⟩ := parentS_fresh st p
  refine ⟨main _ _ hpf hpa, fun elems => ?_, fun k => ?_⟩
  · obtain ⟨hjf, hja⟩ := joinS_fresh st p elems
    exact main _ _ hjf hja
  · obtain ⟨hrf, hra⟩ := relativeToS_fresh st p k
    exact main _ _ hrf hra

/-- Witness for C9 on the concrete store holding the pointer `/a/b`. -/
theorem derived_ops_no_mutation_witness :
    ((0 : Nat) < ([[['a'], ['b']]] : Store).length) ∧
    (⟨0, 0, 2, 2⟩ : GoSlice).read (parentS [[['a'], ['b']]] ⟨0, 0, 2, 2⟩).1 =
      (⟨0, 0, 2, 2⟩ : GoSlice).read [[['a'], ['b']]] :=
  ⟨by decide,
    (derived_ops_no_mutation [[['a'], ['b']]] ⟨0, 0, 2, 2⟩ (by decide)).1.1⟩
